import Mathlib

/-!
Verification of the sanitization/rewrite pipeline of the AI-diagram-to-Terraform
generator.  The pipeline lives in the upload route of the Express server: after
the AI produces Terraform text, the server applies a fixed sequence of string
replacements (generic artifact removal, provider-specific serverless rewrites,
interpolation repair, blank-line collapse, final trim) before storing and
returning the code.

The JavaScript replacements are `String.replace` calls with global regular
expressions.  They are embedded here as character-list scanners with the exact
semantics of the source regexes:

  * `replace(/re/g, rep)` scans the original text left to right; at the first
    position where the regex matches it emits the replacement and resumes
    scanning right after the matched span (the replacement itself is never
    rescanned).  `scanF` below implements this, `scanAF` the `/m`-anchored
    variant where a match may only start at the beginning of a line.
  * `[^}]*}` and the lazy `[\s\S]*?}` both extend a match exactly to the first
    closing brace after the opening brace; no brace counting is performed.
  * greedy `\s*` before a literal consumes the whole whitespace run, and
    `.*?\n` consumes everything up to and including the next newline (`.` never
    matches a newline).

Fuel (initialised with the length of the text) makes every scanner total and
kernel-computable; one unit of fuel is spent per consumed character, so fuel
equal to the length of the input never runs out.
-/

set_option maxRecDepth 100000
set_option maxHeartbeats 4000000

/-- Characters matched by the JavaScript `\s` class (the subset that can occur
in the pipeline's inputs). -/
def isWsChar (c : Char) : Bool :=
  c = ' ' || c = '\t' || c = '\n' || c = '\r' || c = '\x0b' || c = '\x0c'

/-- Characters matched by `[a-zA-Z0-9_]`. -/
def isWordChar (c : Char) : Bool :=
  c.isAlpha || c.isDigit || c = '_'

/-- `leadsWith pat l` is true when `pat` is a prefix of `l`. -/
def leadsWith : List Char → List Char → Bool
  | [], _ => true
  | _ :: _, [] => false
  | p :: ps, c :: cs => p = c && leadsWith ps cs

/-- `containsSub l pat`: `pat` occurs somewhere in `l` (JS `indexOf >= 0`). -/
def containsSub : List Char → List Char → Bool
  | [], pat => leadsWith pat []
  | c :: cs, pat => leadsWith pat (c :: cs) || containsSub cs pat

/-- Number of positions of `l` at which `pat` starts. -/
def countOcc (pat : List Char) : List Char → Nat
  | [] => 0
  | c :: cs => (if leadsWith pat (c :: cs) then 1 else 0) + countOcc pat cs

/-- Index of the first occurrence of `pat` in `l` (JS `indexOf`). -/
def indexOfSub (pat : List Char) : List Char → Option Nat
  | [] => if leadsWith pat [] then some 0 else none
  | c :: cs =>
    if leadsWith pat (c :: cs) then some 0
    else (indexOfSub pat cs).map (· + 1)

/-- Index of the first occurrence of character `x` (JS `indexOf`). -/
def indexOfChar (x : Char) : List Char → Option Nat
  | [] => none
  | c :: cs => if c = x then some 0 else (indexOfChar x cs).map (· + 1)

/-- Index of the last occurrence of character `x` (JS `lastIndexOf`). -/
def lastIndexOfChar (x : Char) (l : List Char) : Option Nat :=
  (indexOfChar x l.reverse).map (fun i => l.length - 1 - i)

/-- Insert `ins` before position `i` (JS `substring(0,i) + ins + substring(i)`). -/
def insertAt (i : Nat) (ins l : List Char) : List Char :=
  l.take i ++ ins ++ l.drop i

/-- JS `String.toLowerCase` (character-wise). -/
def toLowerS (s : String) : String :=
  ⟨s.data.map Char.toLower⟩

/-- JS `String.trim`: strip whitespace from both ends. -/
def trimL (l : List Char) : List Char :=
  ((l.dropWhile isWsChar).reverse.dropWhile isWsChar).reverse

/-- A replacement rule: at the current position either no match, or
`some (rep, n)` meaning the match consumed `n + 1` characters and is replaced
by `rep`.  The `n + 1` convention makes progress structural. -/
abbrev Rule := List Char → Option (List Char × Nat)

/-- Global-replace scanner (JS `str.replace(/re/g, rep)`): try the rule at every
position from the left; on a match emit the replacement and resume after the
matched span.  Fuel decreases once per consumed character. -/
def scanF (m : Rule) : Nat → List Char → List Char
  | _, [] => []
  | 0, l => l
  | f + 1, c :: cs =>
    match m (c :: cs) with
    | some (rep, n) => rep ++ scanF m f (cs.drop n)
    | none => c :: scanF m f cs

/-- Run a global replace with enough fuel for the whole text. -/
def runScan (m : Rule) (l : List Char) : List Char :=
  scanF m l.length l

/-- Global-replace scanner for `/m`-anchored regexes (`^...`): a match may only
start at the beginning of the string or just after a newline. -/
def scanAF (m : Rule) : Nat → Bool → List Char → List Char
  | _, _, [] => []
  | 0, _, l => l
  | f + 1, atStart, c :: cs =>
    match (if atStart then m (c :: cs) else none) with
    | some (rep, n) =>
      rep ++ scanAF m f ((c :: cs.take n).getLastD 'x' = '\n') (cs.drop n)
    | none => c :: scanAF m f (c = '\n') cs

/-- Run a line-anchored global replace with enough fuel for the whole text. -/
def runScanA (m : Rule) (l : List Char) : List Char :=
  scanAF m l.length true l

/-!  ## The upload route's provider resolution (server.js, lines 347-372)

The route lowercases the AI-detected provider (`'unknown'` when absent); when
it is not a supported token it falls back to the lowercased
`?cloudProvider=` query value, rejecting the request before any Terraform
text is generated or transformed when that too is missing or unsupported. -/

/-- The two rejections the upload route can produce before the pipeline runs. -/
inductive UploadError where
  | unsupportedProvider (p : String)
  | couldNotIdentify
  deriving DecidableEq, Repr

deriving instance DecidableEq for Except

/-- `supportedProviders = ['aws', 'azure', 'gcp']`. -/
def supportedProviders : List String := ["aws", "azure", "gcp"]

/-- JS truthiness of an optional string: an absent value and the empty string
are both falsy (`x ? ... : ...`). -/
def truthy : Option String → Option String
  | some s => if s = "" then none else some s
  | none => none

/-- Provider detection/rejection logic of `app.post('/upload')`:
`cloudProvider = parsed.cloudProvider ? parsed.cloudProvider.toLowerCase() : 'unknown'`
and `userProvidedProvider = req.query.cloudProvider ? req.query.cloudProvider.toLowerCase() : null`
— both conditionals test JS truthiness, so an empty string counts as absent —
then the `if (cloudProvider === 'unknown' || !supportedProviders.includes(...))`
branch with the user-supplied query parameter as fallback. -/
def resolveProvider (detected userQuery : Option String) : Except UploadError String :=
  let cloudProvider := ((truthy detected).map toLowerS).getD "unknown"
  if cloudProvider == "unknown" || !(supportedProviders.contains cloudProvider) then
    match (truthy userQuery).map toLowerS with
    | some u =>
      if supportedProviders.contains u then Except.ok u
      else Except.error (UploadError.unsupportedProvider u)
    | none => Except.error UploadError.couldNotIdentify
  else
    Except.ok cloudProvider

/-!  ## The `/edit` route (server.js, lines 566-583)

`editTerraformCode` is an external AI call; its outcome is a parameter here.
The handler assigns `lastGeneratedCode` and rewrites the stored file only
after the call returned; a thrown error jumps to the catch block, which sends
a 500 response without touching either. -/

/-- The mutable state touched by `/edit`: the `lastGeneratedCode` variable,
the `lastTfFilePath` variable, and the contents of the file on disk. -/
structure ServerState where
  lastGeneratedCode : String
  lastTfFilePath : Option String
  fileContents : Option String
  deriving DecidableEq, Repr

/-- Response of the `/edit` handler. -/
inductive EditResponse where
  | ok (code : String)
  | err500
  deriving DecidableEq, Repr

/-- `app.post('/edit')`: on success store the updated code and (when a file
path exists) overwrite the file; on failure answer 500 and change nothing. -/
def editEndpoint (st : ServerState) (editOutcome : Except String String) :
    ServerState × EditResponse :=
  match editOutcome with
  | Except.error _ => (st, EditResponse.err500)
  | Except.ok updatedCode =>
    let st' : ServerState :=
      { st with
        lastGeneratedCode := updatedCode
        fileContents :=
          if st.lastTfFilePath.isSome then some updatedCode else st.fileContents }
    (st', EditResponse.ok updatedCode)

/-- C10: if the edit operation fails, the stored state (current code and file)
is unchanged and the caller gets the error response; on success the stored
code is exactly the edit result. -/
theorem edit_failure_leaves_state_unchanged (st : ServerState) (e c : String) :
    editEndpoint st (Except.error e) = (st, EditResponse.err500) ∧
    (editEndpoint st (Except.ok c)).1.lastGeneratedCode = c := by
  constructor <;> rfl

/-!  ## Pattern components shared by the replacement regexes -/

/-- Consume a literal, or fail. -/
def afterLit (pat l : List Char) : Option (List Char) :=
  if leadsWith pat l then some (l.drop pat.length) else none

/-- Does the text contain a `[a-zA-Z0-9_]` character immediately followed by
`=` (the JS test `/[a-zA-Z0-9_]+=/.test(s)`)? -/
def containsWordEq : List Char → Bool
  | [] => false
  | [_] => false
  | a :: b :: rest => (isWordChar a && b = '=') || containsWordEq (b :: rest)

/-- First position (left to right) where `p` yields a value (regex search). -/
def firstSome (p : List Char → Option α) : List Char → Option α
  | [] => p []
  | c :: cs => (p (c :: cs)).orElse (fun _ => firstSome p cs)

/-- First line-start position where `p` yields a value (`/m`-anchored search). -/
def firstSomeA (p : List Char → Option α) : Bool → List Char → Option α
  | _, [] => none
  | atStart, c :: cs =>
    (if atStart then p (c :: cs) else none).orElse (fun _ => firstSomeA p (c = '\n') cs)

/-- Some position of the text satisfies `p` (regex `test`). -/
def anyPos (p : List Char → Bool) : List Char → Bool
  | [] => p []
  | c :: cs => p (c :: cs) || anyPos p cs

/-- Match `kw\s+"kind"\s+"[^"]+"\s*{` at the current position; returns the
matched head and the rest just after the opening brace. -/
def matchDeclHead (kw kind l : List Char) : Option (List Char × List Char) := do
  let r1 ← afterLit kw l
  let ws1 := r1.takeWhile isWsChar
  if ws1.isEmpty then none else
  let r2 ← afterLit "\"".data (r1.drop ws1.length)
  let r3 ← afterLit kind r2
  let r4 ← afterLit "\"".data r3
  let ws2 := r4.takeWhile isWsChar
  if ws2.isEmpty then none else
  let r5 ← afterLit "\"".data (r4.drop ws2.length)
  let name := r5.takeWhile (· != '"')
  if name.isEmpty then none else
  let r6 ← afterLit "\"".data (r5.drop name.length)
  let ws3 := r6.takeWhile isWsChar
  let r7 ← afterLit "\x7b".data (r6.drop ws3.length)
  some (l.take (l.length - r7.length), r7)

/-- Match a whole declaration with `[^}]*}` / lazy `[\s\S]*?}` body: the block
extends exactly to the first closing brace after the opening one.  Returns
`(head, body, rest-after-closing-brace)`. -/
def matchDeclBlock (kw kind l : List Char) : Option (List Char × List Char × List Char) :=
  match matchDeclHead kw kind l with
  | none => none
  | some (h, r) =>
    let b := r.takeWhile (· != '\x7d')
    match r.drop b.length with
    | '\x7d' :: r2 => some (h, b, r2)
    | _ => none

/-!  ## Generic cleanups (server.js, lines 381-395) -/

/-- `/resource\s+"local_file"\s+"[^"]+"\s*{[^}]*}/gs` replaced by `''`. -/
def mLocalFile : Rule := fun l =>
  match matchDeclBlock "resource".data "local_file".data l with
  | some (h, b, _) => some ([], h.length + b.length)
  | none => none

/-- `/data\s+"archive_file"\s+"[^"]+"\s*{[^}]*}/gs` replaced by `''`. -/
def mArchive : Rule := fun l =>
  match matchDeclBlock "data".data "archive_file".data l with
  | some (h, b, _) => some ([], h.length + b.length)
  | none => none

/-- `/source_code_hash\s*=\s*filebase64sha256\(.*\)\n?/g` replaced by `''`:
after the opening parenthesis the greedy `.*` runs to the last `)` of the
line, and an immediately following newline is consumed too. -/
def mHash : Rule := fun l => do
  let r1 ← afterLit "source_code_hash".data l
  let r2 ← afterLit "=".data (r1.dropWhile isWsChar)
  let r4 ← afterLit "filebase64sha256(".data (r2.dropWhile isWsChar)
  let line := r4.takeWhile (· != '\n')
  let j ← lastIndexOfChar ')' line
  let r5 := r4.drop (j + 1)
  let r6 := match r5 with | '\n' :: t => t | _ => r5
  some ([], l.length - r6.length - 1)

/-- Generic Cleaner stage: the three document-wide removals, in source order. -/
def stripArtifactDeclarations (t : List Char) : List Char :=
  runScan mHash (runScan mArchive (runScan mLocalFile t))

/-!  ## AWS lambda rewrite (server.js, lines 398-454) -/

/-- `\s*attr\s*=\s*.*?\n` replaced by `'\n'` (used for `filename` and for the
four GCP source attributes): the leading `\s*` swallows the whitespace run in
front of the attribute and `.*?\n` everything up to and including the next
newline. -/
def mAttrLine (attr : List Char) : Rule := fun l => do
  let ws := l.takeWhile isWsChar
  let r1 ← afterLit attr (l.drop ws.length)
  let r2 ← afterLit "=".data (r1.dropWhile isWsChar)
  let r3 := r2.dropWhile isWsChar
  let seg := r3.takeWhile (· != '\n')
  let r4 ← match r3.drop seg.length with | '\n' :: t => some t | _ => none
  some ("\n".data, l.length - r4.length - 1)

/-- `\s*inline_code\s*{[\s\S]*?}\n` replaced by `'\n'`: the lazy body extends
to the first `}` that is immediately followed by a newline. -/
def mInlineCode : Rule := fun l => do
  let ws := l.takeWhile isWsChar
  let r1 ← afterLit "inline_code".data (l.drop ws.length)
  let r2 ← afterLit "\x7b".data (r1.dropWhile isWsChar)
  let j ← indexOfSub "\x7d\n".data r2
  let r3 := r2.drop (j + 2)
  some ("\n".data, l.length - r3.length - 1)

/-- Does `attr\s*=\s*".*?"` match at this position: an opening quote with a
closing quote on the same line (`.` does not match newlines)? -/
def attrQuotedAt (attr l : List Char) : Bool :=
  (do
    let r1 ← afterLit attr l
    let r2 ← afterLit "=".data (r1.dropWhile isWsChar)
    let r3 ← afterLit "\"".data (r2.dropWhile isWsChar)
    let seg := r3.takeWhile (fun c => c != '"' && c != '\n')
    afterLit "\"".data (r3.drop seg.length)).isSome

/-- Does `source_code\s*=\s*(".*?"|<<EOF[\s\S]*?EOF)` match at this position? -/
def sourceCodeAt (l : List Char) : Bool :=
  (do
    let r1 ← afterLit "source_code".data l
    let r2 ← afterLit "=".data (r1.dropWhile isWsChar)
    let r3 := r2.dropWhile isWsChar
    let quoted := (do
      let r4 ← afterLit "\"".data r3
      let seg := r4.takeWhile (fun c => c != '"' && c != '\n')
      afterLit "\"".data (r4.drop seg.length) : Option (List Char))
    match quoted with
    | some t => some t
    | none =>
      let r4 ← afterLit "<<EOF".data r3
      if containsSub r4 "EOF".data then some r4 else none).isSome

/-- Match `runtime\s*=\s*"(python[^"]*|node[^"]*|go[^"]*|java[^"]*|ruby[^"]*)"`
at this position, returning the captured value. -/
def runtimeAt (l : List Char) : Option (List Char) := do
  let r1 ← afterLit "runtime".data l
  let r2 ← afterLit "=".data (r1.dropWhile isWsChar)
  let r3 ← afterLit "\"".data (r2.dropWhile isWsChar)
  let v := r3.takeWhile (· != '"')
  let _ ← afterLit "\"".data (r3.drop v.length)
  if leadsWith "python".data v || leadsWith "node".data v || leadsWith "go".data v
      || leadsWith "java".data v || leadsWith "ruby".data v then
    some v
  else none

/-- Match `handler\s*=\s*"([^"]*)"` at this position, returning the capture. -/
def handlerAt (l : List Char) : Option (List Char) := do
  let r1 ← afterLit "handler".data l
  let r2 ← afterLit "=".data (r1.dropWhile isWsChar)
  let r3 ← afterLit "\"".data (r2.dropWhile isWsChar)
  let v := r3.takeWhile (· != '"')
  let _ ← afterLit "\"".data (r3.drop v.length)
  some v

/-- Match `(\s*)(function_name\s*=\s*".*?"|\s*role\s*=\s*[^}\n]*)` at this
position, returning the whole match and the first capture (the leading
whitespace run). -/
def fnNameOrRoleAt (l : List Char) : Option (List Char × List Char) :=
  let ws := l.takeWhile isWsChar
  let r1 := l.drop ws.length
  let alt1 : Option (List Char) := do
    let r2 ← afterLit "function_name".data r1
    let r3 ← afterLit "=".data (r2.dropWhile isWsChar)
    let r4 ← afterLit "\"".data (r3.dropWhile isWsChar)
    let seg := r4.takeWhile (fun c => c != '"' && c != '\n')
    afterLit "\"".data (r4.drop seg.length)
  match alt1 with
  | some rest => some (l.take (l.length - rest.length), ws)
  | none =>
    let alt2 : Option (List Char) := do
      let r2 ← afterLit "role".data r1
      let r3 ← afterLit "=".data (r2.dropWhile isWsChar)
      let r4 := r3.dropWhile isWsChar
      some (r4.drop (r4.takeWhile (fun c => c != '\x7d' && c != '\n')).length)
    match alt2 with
    | some rest => some (l.take (l.length - rest.length), ws)
    | none => none

/-- `lambdaBlock.match(/^(\s*)resource/m)`: the whitespace captured at the
first line start that leads into the word `resource`.  (A matched block always
starts with `resource`, so this is the empty string there.) -/
def originalIndentOf (b : List Char) : List Char :=
  (firstSomeA
    (fun l =>
      let ws := l.takeWhile isWsChar
      if leadsWith "resource".data (l.drop ws.length) then some ws else none)
    true b).getD []

/-- Python placeholder body (literal backslash-quote sequences as in the JS
template literal `{\"statusCode\": 200, \"body\": \"OK\"}`). -/
def pyPlaceholder (fn : List Char) : List Char :=
  "def ".data ++ fn ++
    "(event, context): return \x7b\\\"statusCode\\\": 200, \\\"body\\\": \\\"OK\\\"\x7d".data

/-- Node placeholder body. -/
def nodePlaceholder (fn : List Char) : List Char :=
  "exports.".data ++ fn ++
    " = async (event) => \x7b return \x7b statusCode: 200, body: JSON.stringify(\\\"OK\\\") \x7d; \x7d;".data

/-- Fallback placeholder body for unrecognised runtimes. -/
def otherPlaceholder (hv : List Char) : List Char :=
  "/* Placeholder code for ".data ++ hv ++ " */".data

/-- Insert before `lastIndexOf('}')` when a closing brace exists. -/
def insertBeforeLastBrace (ins l : List Char) : List Char :=
  match lastIndexOfChar '\x7d' l with
  | some i => insertAt i ins l
  | none => l

/-- The handler-insertion branch of the lambda rewrite: place the synthesized
`handler` line after the `function_name`/`role` match (or right after the
opening brace), reusing that line's captured indentation. -/
def insertHandlerLine (hv contentInd b : List Char) : List Char :=
  match firstSome fnNameOrRoleAt b with
  | some (m, cap) =>
    let ip := ((indexOfSub m b).getD 0) + m.length
    let ind := if cap.isEmpty then contentInd else cap
    insertAt ip ("\n".data ++ ind ++ "handler          = \"".data ++ hv ++ "\"".data) b
  | none =>
    let ip := match indexOfChar '\x7b' b with | some i => i + 1 | none => 0
    insertAt ip ("\n".data ++ contentInd ++ "handler          = \"".data ++ hv ++ "\"".data) b

/-- The callback applied to each matched `aws_lambda_function` block. -/
def awsCallback (b : List Char) : List Char :=
  let contentInd := originalIndentOf b ++ "  ".data
  let runtime := (firstSome runtimeAt b).getD "python3.9".data
  let handlerValue := (firstSome handlerAt b).getD "handler.handler".data
  let handlerFunctionName := handlerValue.takeWhile (· != '.')
  let placeholderCode :=
    if leadsWith "node".data runtime then nodePlaceholder handlerFunctionName
    else if leadsWith "python".data runtime then pyPlaceholder handlerFunctionName
    else otherPlaceholder handlerValue
  let b1 := runScan (mAttrLine "filename".data) b
  let b2 := runScan mInlineCode b1
  let b3 :=
    if anyPos (attrQuotedAt "handler".data) b2 then b2
    else insertHandlerLine handlerValue contentInd b2
  if anyPos sourceCodeAt b3 then b3
  else insertBeforeLastBrace
    (contentInd ++ "source_code      = \"".data ++ placeholderCode ++ "\"\n".data) b3

/-- `/(resource\s+"aws_lambda_function"\s+"[^"]+"\s*{[\s\S]*?})/g` with the
rewrite callback as replacement. -/
def mLambda : Rule := fun l =>
  match matchDeclBlock "resource".data "aws_lambda_function".data l with
  | some (h, b, _) => some (awsCallback (h ++ b ++ ['\x7d']), h.length + b.length)
  | none => none

/-!  ## GCP cloud-function rewrite (server.js, lines 455-494) -/

/-- The callback applied to each matched `google_cloud_function` block. -/
def gcpCallback (b : List Char) : List Char :=
  let contentInd := originalIndentOf b ++ "  ".data
  let b1 := runScan (mAttrLine "source_repository".data) b
  let b2 := runScan (mAttrLine "build_environment_variables".data) b1
  let b3 := runScan (mAttrLine "source_archive_bucket".data) b2
  let b4 := runScan (mAttrLine "source_archive_object".data) b3
  let b5 :=
    if anyPos (attrQuotedAt "source_archive_url".data) b4 then b4
    else insertBeforeLastBrace
      (contentInd ++ "source_archive_url = \"gs://your-dummy-gcp-bucket/dummy-function.zip\"\n".data) b4
  if anyPos (attrQuotedAt "entry_point".data) b5 then b5
  else insertBeforeLastBrace (contentInd ++ "entry_point        = \"main\"\n".data) b5

/-- `/(resource\s+"google_cloud_function"\s+"[^"]+"\s*{[\s\S]*?})/g` with the
rewrite callback as replacement. -/
def mGcpFn : Rule := fun l =>
  match matchDeclBlock "resource".data "google_cloud_function".data l with
  | some (h, b, _) => some (gcpCallback (h ++ b ++ ['\x7d']), h.length + b.length)
  | none => none

/-!  ## Azure function-app rewrite (server.js, lines 495-524) -/

/-- `^\s*KEY\s*=\s*".*?"\n?` (multiline) replaced by `''`. -/
def mAzLineQuoted (key : List Char) : Rule := fun l => do
  let ws := l.takeWhile isWsChar
  let r1 ← afterLit key (l.drop ws.length)
  let r2 ← afterLit "=".data (r1.dropWhile isWsChar)
  let r3 ← afterLit "\"".data (r2.dropWhile isWsChar)
  let seg := r3.takeWhile (fun c => c != '"' && c != '\n')
  let r4 ← afterLit "\"".data (r3.drop seg.length)
  let r5 := match r4 with | '\n' :: t => t | _ => r4
  some ([], l.length - r5.length - 1)

/-- `^\s*APPINSIGHTS_INSTRUMENTATIONKEY\s*=\s*.*?\n?` (multiline) replaced by
`''`.  The lazy `.*?` and the optional `\n?` both succeed consuming nothing
(any newline was already taken by the greedy `\s*`), so the match ends right
after `=\s*` and the value text survives. -/
def mAzAppInsightsRaw : Rule := fun l => do
  let ws := l.takeWhile isWsChar
  let r1 ← afterLit "APPINSIGHTS_INSTRUMENTATIONKEY".data (l.drop ws.length)
  let r2 ← afterLit "=".data (r1.dropWhile isWsChar)
  let r3 := r2.dropWhile isWsChar
  some ([], l.length - r3.length - 1)

/-- The callback applied to each matched `app_settings = {...}` span: strip
the three packaging settings, then drop the whole span when the remainder
trims to `app_settings = {}` or contains no `[a-zA-Z0-9_]=` adjacency. -/
def azAppSettingsCb (a : List Char) : List Char :=
  let c1 := runScanA (mAzLineQuoted "WEBSITE_RUN_FROM_PACKAGE".data) a
  let c2 := runScanA (mAzLineQuoted "FUNCTIONS_WORKER_RUNTIME".data) c1
  let c3 := runScanA (mAzLineQuoted "APPINSIGHTS_INSTRUMENTATIONKEY".data) c2
  if trimL c3 = "app_settings = \x7b\x7d".data || !(containsWordEq c3) then [] else a

/-- `/(app_settings\s*=\s*{[\s\S]*?})/g` with the emptiness-check callback. -/
def mAppSettings : Rule := fun l => do
  let r1 ← afterLit "app_settings".data l
  let r2 ← afterLit "=".data (r1.dropWhile isWsChar)
  let r3 ← afterLit "\x7b".data (r2.dropWhile isWsChar)
  let body := r3.takeWhile (· != '\x7d')
  let r4 ← match r3.drop body.length with | '\x7d' :: t => some t | _ => none
  let matched := l.take (l.length - r4.length)
  some (azAppSettingsCb matched, l.length - r4.length - 1)

/-- The callback applied to each matched `azurerm_function_app` block. -/
def azureCallback (b : List Char) : List Char :=
  let b1 := runScanA (mAzLineQuoted "WEBSITE_RUN_FROM_PACKAGE".data) b
  let b2 := runScanA (mAzLineQuoted "FUNCTIONS_WORKER_RUNTIME".data) b1
  let b3 := runScanA mAzAppInsightsRaw b2
  runScan mAppSettings b3

/-- `/(resource\s+"azurerm_function_app"\s+"[^"]+"\s*{[\s\S]*?})/g` with the
rewrite callback as replacement. -/
def mAzureFnApp : Rule := fun l =>
  match matchDeclBlock "resource".data "azurerm_function_app".data l with
  | some (h, b, _) => some (azureCallback (h ++ b ++ ['\x7d']), h.length + b.length)
  | none => none

/-!  ## Final general cleanups (server.js, lines 526-539) -/

/-- `/\$\{path\.module\s*$/gm` replaced by `'${path.module}'`: the greedy
`\s*` extends to the end of the text, or else up to (not including) the last
newline of the whitespace run; without either line end there is no match. -/
def mPathModule : Rule := fun l => do
  let r1 ← afterLit "$\x7bpath.module".data l
  let ws := r1.takeWhile isWsChar
  if (r1.drop ws.length).isEmpty then
    some ("$\x7bpath.module\x7d".data, l.length - 1)
  else
    match lastIndexOfChar '\n' ws with
    | some j => some ("$\x7bpath.module\x7d".data, "$\x7bpath.module".data.length + j - 1)
    | none => none

/-- `/\$\{([^}]+)\n/g` replaced by `` `${expr.trim()}` ``: the greedy `[^}]+`
captures up to the last newline before the first closing brace; at least one
character must precede that newline. -/
def mInterpClose : Rule := fun l => do
  let r1 ← afterLit "$\x7b".data l
  let run := r1.takeWhile (· != '\x7d')
  let j ← lastIndexOfChar '\n' run
  if j == 0 then none
  else some ("$\x7b".data ++ trimL (run.take j) ++ "\x7d".data, j + 2)

/-- `/(\n\s*){2,}/g` replaced by `'\n\n'`: a whitespace run that starts with a
newline and contains at least two newlines is collapsed entirely. -/
def mBlank : Rule := fun l =>
  match l with
  | [] => none
  | c :: _ =>
    if c = '\n' then
      let run := l.takeWhile isWsChar
      if 2 ≤ run.count '\n' then some ("\n\n".data, run.length - 1) else none
    else none

/-- The pipeline's final cleanup: interpolation repair, blank-line collapse,
trim — in source order. -/
def finalCleanups (t : List Char) : List Char :=
  trimL (runScan mBlank (runScan mInterpClose (runScan mPathModule t)))

/-!  ## The whole sanitization pipeline (server.js, lines 379-539) -/

/-- The sanitization pipeline applied to generated Terraform text for an
already-resolved provider: generic cleanups, then the provider-specific
serverless rewrite (`aws` / `gcp` / `azure` comparisons in source order),
then the final general cleanups. -/
def sanitizeL (t provider : List Char) : List Char :=
  let p := provider.map Char.toLower
  let t3 := stripArtifactDeclarations t
  let t4 :=
    if p = "aws".data then runScan mLambda t3
    else if p = "gcp".data then runScan mGcpFn t3
    else if p = "azure".data then runScan mAzureFnApp t3
    else t3
  finalCleanups t4

/-- String-level wrapper of the sanitization pipeline. -/
def sanitize (text provider : String) : String := ⟨sanitizeL text.data provider.data⟩

/-- The upload route: resolve the provider (rejecting unsupported ones before
any Terraform text exists) and only then run the sanitization pipeline. -/
def handleUpload (detected userQuery : Option String) (terraformCode : String) :
    Except UploadError String :=
  (resolveProvider detected userQuery).map (fun p => sanitize terraformCode p)

/-!  ## Concrete documents used in the claims -/

/-- Two local-mirror declarations where removing the inner one splices the
leading text and the trailing braces into a new, complete declaration. -/
def adversarialDoc : String :=
  "resource \"local_file\" \"w\" resource \"local_file\" \"a\" \x7b\x7d \x7b\x7d"

/-- Scenario A: one local-mirror declaration, one archive declaration, and an
`aws_lambda_function` block with a `filename` attribute. -/
def scenarioADoc : String :=
  "resource \"local_file\" \"s\" \x7b\n  content = \"x\"\n\x7d\n\ndata \"archive_file\" \"z\" \x7b\n  type = \"zip\"\n\x7d\n\nresource \"aws_lambda_function\" \"fn\" \x7b\n  runtime = \"python3.9\"\n  handler = \"index.handler\"\n  filename = \"a.zip\"\n\x7d"

/-- An unterminated local-mirror declaration followed by an unrelated
resource whose closing brace terminates the `[^}]*}` match. -/
def unterminatedFirstDoc : String :=
  "resource \"local_file\" \"a\" \x7b\n  filename = \"f\"\nresource \"aws_instance\" \"web\" \x7b\n  ami = \"abc\"\n\x7d"

/-- An unterminated local-mirror declaration at the end of the document, with
no closing brace anywhere after its opening brace. -/
def unterminatedLastDoc : String :=
  "resource \"aws_instance\" \"web\" \x7b\n  ami = \"abc\"\n\x7d\nresource \"local_file\" \"a\" \x7b\n  filename = \"f\""

/-- A lambda block that already has an inline `source_code` attribute whose
value happens to contain the token `filename = `. -/
def sourceCodeWithFilenameDoc : String :=
  "resource \"aws_lambda_function\" \"fn\" \x7b\n  runtime = \"python3.9\"\n  handler = \"index.handler\"\n  source_code = \"x; filename = y\"\n\x7d"

/-- A lambda block with a nested `environment` sub-block. -/
def nestedLambdaDoc : String :=
  "resource \"aws_lambda_function\" \"f\" \x7b\n  environment \x7b\n  \x7d\n\x7d"

/-- An `azurerm_function_app` whose `app_settings` holds one meaningful
assignment written in the usual spaced HCL style. -/
def azureMeaningfulDoc : String :=
  "resource \"azurerm_function_app\" \"fa\" \x7b\n  name = \"fn\"\n  app_settings = \x7b\n    FOO = \"bar\"\n  \x7d\n\x7d"

/-!  ## Decidable observations used in the claim statements -/

/-- The locator: first declaration block of the given kind in the text. -/
def findDeclBlock (kw kind : List Char) : List Char → Option (List Char × List Char × List Char) :=
  firstSome (matchDeclBlock kw kind)

/-- The text contains a `resource "local_file" ... { ... }` declaration (as
located by the pipeline's own matcher). -/
def hasLocalFileDecl (s : String) : Bool :=
  (findDeclBlock "resource".data "local_file".data s.data).isSome

/-- The text contains a `data "archive_file" ... { ... }` declaration. -/
def hasArchiveDecl (s : String) : Bool :=
  (findDeclBlock "data".data "archive_file".data s.data).isSome

/-- The text contains a `filename = ...` attribute line. -/
def hasFilenameAttr (s : String) : Bool :=
  anyPos (fun l => (mAttrLine "filename".data l).isSome) s.data

/-- The text contains a `handler = "..."` attribute. -/
def hasHandlerAttr (s : String) : Bool :=
  anyPos (attrQuotedAt "handler".data) s.data

/-- The text contains an inline `source_code` attribute. -/
def hasSourceCodeAttr (s : String) : Bool :=
  anyPos sourceCodeAt s.data

/-- Equal numbers of opening and closing braces. -/
def braceBalanced (l : List Char) : Bool :=
  l.count '\x7b' == l.count '\x7d'

/-- String-level Generic Cleaner stage. -/
def stripArtifacts (s : String) : String :=
  ⟨stripArtifactDeclarations s.data⟩

/-!  ## Claim theorems on concrete documents -/

/-- C1 (counterexample): the pipeline is not idempotent.  On
`adversarialDoc` the first pass removes the complete inner declaration and
thereby splices the remaining text into a new complete `local_file`
declaration, which only the second pass removes. -/
theorem sanitize_not_idempotent_cx :
    sanitize (sanitize adversarialDoc "aws") "aws" ≠ sanitize adversarialDoc "aws" := by
  decide

/-- C1 (amended): on a document whose declarations are complete and free of
nested braces — here the representative Scenario-A document — running the
pipeline twice gives the same result as running it once. -/
theorem sanitize_idempotent_on_clean_doc :
    sanitize (sanitize scenarioADoc "aws") "aws" = sanitize scenarioADoc "aws" := by
  decide

/-- C2 (counterexample): `adversarialDoc` contains a local-mirror
declaration, yet the Generic Cleaner's output still contains a local-mirror
declaration (the removal spliced one together from the surrounding text). -/
theorem generic_cleaner_leaves_declaration_cx :
    hasLocalFileDecl adversarialDoc = true ∧
    hasLocalFileDecl (stripArtifacts adversarialDoc) = true := by
  decide

/-- C2 (amended): on inputs whose local-mirror/archive declarations are
complete, brace-free blocks that do not abut further declaration text — here
the representative Scenario-A document — the Generic Cleaner eliminates every
declaration of both kinds. -/
theorem generic_cleaner_eliminates_artifacts_repr :
    hasLocalFileDecl scenarioADoc = true ∧ hasArchiveDecl scenarioADoc = true ∧
    hasLocalFileDecl (stripArtifacts scenarioADoc) = false ∧
    hasArchiveDecl (stripArtifacts scenarioADoc) = false := by
  decide

/-- C3 (counterexample): on a lambda block with a nested sub-block the
locator stops at the first closing brace and yields a block whose body has
unbalanced braces — there is no brace counting. -/
theorem locator_unbalanced_block_cx :
    (findDeclBlock "resource".data "aws_lambda_function".data nestedLambdaDoc.data).map
      (fun t => braceBalanced t.2.1) = some false := by
  decide

/-- C4 (counterexample): the provider identifier `"AWS"` is not one of the
three lowercase tokens, yet the upload route does not reject it — it is
lowercased and accepted, and the pipeline runs. -/
theorem uppercase_provider_accepted_cx :
    supportedProviders.contains "AWS" = false ∧
    handleUpload (some "AWS") none "x" = Except.ok "x" := by
  decide

/-- C5 (counterexample): on an unterminated declaration followed by another
resource, the `[^}]*}` match runs through the next block's closing brace, so
the unterminated block is not left verbatim and the following declaration is
destroyed with it (and no warning exists anywhere in the pipeline). -/
theorem unterminated_block_destroys_rest_cx :
    containsSub unterminatedFirstDoc.data "aws_instance".data = true ∧
    sanitize unterminatedFirstDoc "aws" = "" := by
  decide

/-- C5 (amended): when no closing brace exists anywhere after the
unterminated declaration's opening brace, the pipeline does not fail, leaves
that declaration verbatim, and processes the rest of the document normally. -/
theorem unterminated_last_block_left_verbatim :
    sanitize unterminatedLastDoc "aws" = unterminatedLastDoc := by
  decide

/-- C6: sanitizing the Scenario-A document with the AWS profile yields output
with no local-mirror or archive declaration, no `filename` attribute, a
synthesized inline `source_code` attribute, and a `handler` attribute. -/
theorem scenario_a_aws_rewrite :
    hasLocalFileDecl scenarioADoc = true ∧ hasArchiveDecl scenarioADoc = true ∧
    hasFilenameAttr scenarioADoc = true ∧
    hasLocalFileDecl (sanitize scenarioADoc "aws") = false ∧
    hasArchiveDecl (sanitize scenarioADoc "aws") = false ∧
    hasFilenameAttr (sanitize scenarioADoc "aws") = false ∧
    hasSourceCodeAttr (sanitize scenarioADoc "aws") = true ∧
    hasHandlerAttr (sanitize scenarioADoc "aws") = true := by
  decide

/-- C7 (counterexample): a lambda block already containing an inline
`source_code` attribute is not left intact when its value contains the token
`filename = `: the attribute-stripping pass truncates the value, the presence
check then fails, and a second `source_code` attribute is inserted. -/
theorem existing_source_code_duplicated_cx :
    hasSourceCodeAttr sourceCodeWithFilenameDoc = true ∧
    countOcc "source_code".data sourceCodeWithFilenameDoc.data = 1 ∧
    countOcc "source_code".data (runScan mLambda sourceCodeWithFilenameDoc.data) = 2 := by
  decide

/-- C9: the code removes an `app_settings` block that still contains the
meaningful assignment `FOO = "bar"`, because the emptiness test
`/[a-zA-Z0-9_]+=/` only recognises assignments written without a space before
the `=`.  This contradicts the code's own comment ("Remove any inline
app_settings block if it only contained problematic settings"). -/
theorem app_settings_meaningful_assignment_removed :
    containsSub azureMeaningfulDoc.data "FOO = \"bar\"".data = true ∧
    sanitize azureMeaningfulDoc "azure" =
      "resource \"azurerm_function_app\" \"fa\" \x7b\n  name = \"fn\"\n\n\x7d" ∧
    containsSub (sanitize azureMeaningfulDoc "azure").data "app_settings".data = false := by
  decide

/-!  ## General lemmas about the scanners -/

/-- If the rule fires at no position of the text, the global replace is the
identity (for any fuel). -/
theorem scanF_eq_self (m : Rule) :
    ∀ (l : List Char) (f : Nat), (∀ k, m (l.drop k) = none) → scanF m f l = l := by
  intro l
  induction l with
  | nil => intro f _; cases f <;> rfl
  | cons c cs ih =>
    intro f h
    cases f with
    | zero => rfl
    | succ f =>
      have h0 : m (c :: cs) = none := h 0
      simp only [scanF, h0]
      exact congrArg (c :: ·) (ih f (fun k => h (k + 1)))

/-- A successful literal consumption means the literal was a prefix. -/
theorem afterLit_some_leadsWith {pat l r : List Char} (h : afterLit pat l = some r) :
    leadsWith pat l = true := by
  cases hB : leadsWith pat l with
  | true => rfl
  | false => rw [afterLit, hB] at h; exact absurd h (by simp)

/-- A matching literal starting with `p` forces the text to start with `p`. -/
theorem leadsWith_cons_head {p : Char} {ps l : List Char} (h : leadsWith (p :: ps) l = true) :
    ∃ t, l = p :: t := by
  cases l with
  | nil => simp [leadsWith] at h
  | cons c cs =>
    simp only [leadsWith, Bool.and_eq_true, decide_eq_true_eq] at h
    exact ⟨cs, by rw [h.1]⟩

/-- AWS lambda block with a standalone `filename` attribute next to an
existing inline `source_code` attribute. -/
def awsStandaloneFilenameDoc : String :=
  "resource \"aws_lambda_function\" \"fn\" \x7b\n  runtime = \"python3.9\"\n  handler = \"index.handler\"\n  filename = \"a.zip\"\n  source_code = \"ok\"\n\x7d"

/-- AWS lambda block with an existing inline `source_code` attribute but no
`handler` attribute. -/
def awsNoHandlerDoc : String :=
  "resource \"aws_lambda_function\" \"fn\" \x7b\n  function_name = \"demo\"\n  runtime = \"python3.9\"\n  source_code = \"ok\"\n\x7d"

/-- GCP cloud-function block with a stripped `source_archive_bucket`
attribute next to an existing `source_archive_url` attribute. -/
def gcpKeepUrlDoc : String :=
  "resource \"google_cloud_function\" \"fn\" \x7b\n  source_archive_bucket = \"b\"\n  source_archive_url = \"gs://real/f.zip\"\n  entry_point = \"go\"\n\x7d"

/-- String-level AWS Provider Normalizer stage. -/
def awsNormalize (s : String) : String := ⟨runScan mLambda s.data⟩

/-- String-level GCP Provider Normalizer stage. -/
def gcpNormalize (s : String) : String := ⟨runScan mGcpFn s.data⟩

/-- C7 (amended): when the serverless block already contains an inline-source
attribute (`source_code` for AWS, `source_archive_url` for GCP) and the
stripped-attribute patterns do not reach inside that attribute's value, the
Provider Normalizer leaves the attribute intact — present verbatim and
exactly once, with no duplicate inserted — even when other attributes of the
block are stripped (a standalone `filename` / `source_archive_bucket`) or
synthesized (a missing `handler`). -/
theorem provider_normalizer_keeps_inline_source :
    hasSourceCodeAttr awsStandaloneFilenameDoc = true ∧
    hasFilenameAttr awsStandaloneFilenameDoc = true ∧
    countOcc "source_code".data awsStandaloneFilenameDoc.data = 1 ∧
    countOcc "source_code".data (awsNormalize awsStandaloneFilenameDoc).data = 1 ∧
    containsSub (awsNormalize awsStandaloneFilenameDoc).data "source_code = \"ok\"".data = true ∧
    hasFilenameAttr (awsNormalize awsStandaloneFilenameDoc) = false ∧
    hasHandlerAttr awsNoHandlerDoc = false ∧
    countOcc "source_code".data awsNoHandlerDoc.data = 1 ∧
    countOcc "source_code".data (awsNormalize awsNoHandlerDoc).data = 1 ∧
    containsSub (awsNormalize awsNoHandlerDoc).data "source_code = \"ok\"".data = true ∧
    countOcc "source_archive_url".data gcpKeepUrlDoc.data = 1 ∧
    countOcc "source_archive_url".data (gcpNormalize gcpKeepUrlDoc).data = 1 ∧
    containsSub (gcpNormalize gcpKeepUrlDoc).data
      "source_archive_url = \"gs://real/f.zip\"".data = true := by
  decide

/-- The body captured by a single block match never contains a closing brace:
the match stops at the first one. -/
theorem matchDeclBlock_body_no_close {kw kind l h b r : List Char}
    (hm : matchDeclBlock kw kind l = some (h, b, r)) : '\x7d' ∉ b := by
  unfold matchDeclBlock at hm
  cases hh : matchDeclHead kw kind l with
  | none => rw [hh] at hm; exact absurd hm (by simp)
  | some pr =>
    obtain ⟨h', r'⟩ := pr
    rw [hh] at hm
    simp only at hm
    split at hm
    next c t heq =>
      injection hm with hm'
      injection hm' with e1 hm''
      injection hm'' with e2 e3
      intro hmem
      rw [← e2] at hmem
      have := List.mem_takeWhile_imp hmem
      simp at this
    next => exact absurd hm (by simp)

/-- C3 (amended): the Block Locator does not brace-count and does not skip
strings or heredocs; it extends every located block exactly to the first
closing brace after the head, so the body it returns never contains a closing
brace at all (and is therefore unbalanced whenever the body has nested
opening braces). -/
theorem located_block_body_has_no_closing_brace (kw kind : List Char) :
    ∀ (l h b r : List Char),
      findDeclBlock kw kind l = some (h, b, r) → '\x7d' ∉ b := by
  intro l
  induction l with
  | nil =>
    intro h b r hm
    exact matchDeclBlock_body_no_close (hm : matchDeclBlock kw kind [] = some (h, b, r))
  | cons c cs ih =>
    intro h b r hm
    cases hp : matchDeclBlock kw kind (c :: cs) with
    | some v =>
      have : v = (h, b, r) := by
        have : findDeclBlock kw kind (c :: cs) = some v := by
          simp [findDeclBlock, firstSome, hp, Option.orElse]
        rw [this] at hm
        injection hm
      exact matchDeclBlock_body_no_close (this ▸ hp)
    | none =>
      apply ih h b r
      have : findDeclBlock kw kind (c :: cs) = findDeclBlock kw kind cs := by
        simp [findDeclBlock, firstSome, hp, Option.orElse]
      rw [← this]
      exact hm

/-- Witness for the amended C3 theorem: the locator's result on the
nested-block document, whose body indeed contains no closing brace. -/
theorem located_block_body_witness :
    findDeclBlock "resource".data "aws_lambda_function".data nestedLambdaDoc.data =
      some ("resource \"aws_lambda_function\" \"f\" \x7b".data,
            "\n  environment \x7b\n  ".data, "\n\x7d".data) ∧
    '\x7d' ∉ "\n  environment \x7b\n  ".data :=
  ⟨by decide,
   located_block_body_has_no_closing_brace "resource".data "aws_lambda_function".data
     nestedLambdaDoc.data "resource \"aws_lambda_function\" \"f\" \x7b".data
     "\n  environment \x7b\n  ".data "\n\x7d".data (by decide)⟩

/-- C4 (amended): provider identifiers are lowercased before the support
check, and empty identifiers are falsy (treated as absent).  Whenever the
detected identifier does not lowercase to a supported token, the upload route
rejects before any Terraform text exists, for every input text: with the
unsupported-provider error when a non-empty user identifier was supplied
whose lowercase form is unsupported, and with the could-not-identify
rejection when no user identifier was supplied. -/
theorem unsupported_provider_rejected_before_transform (d q t : String)
    (hd : supportedProviders.contains (toLowerS d) = false)
    (hq : supportedProviders.contains (toLowerS q) = false) (hqne : q ≠ "") :
    handleUpload (some d) (some q) t =
      Except.error (UploadError.unsupportedProvider (toLowerS q)) ∧
    handleUpload (some d) none t = Except.error UploadError.couldNotIdentify := by
  have hq' : ¬ (toLowerS q ∈ supportedProviders) := by simpa using hq
  by_cases hdE : d = ""
  · subst hdE
    constructor <;>
      simp [handleUpload, resolveProvider, truthy, hq', hqne, Except.map]
  · have hd' : ¬ (toLowerS d ∈ supportedProviders) := by simpa using hd
    constructor <;>
      simp [handleUpload, resolveProvider, truthy, hdE, hd', hq', hqne, Except.map]

/-- Witness for the amended C4 theorem at concrete identifiers. -/
theorem unsupported_provider_rejected_witness :
    supportedProviders.contains (toLowerS "Unknown") = false ∧
    supportedProviders.contains (toLowerS "oracle") = false ∧
    ("oracle" ≠ "") ∧
    handleUpload (some "Unknown") (some "oracle") "x" =
      Except.error (UploadError.unsupportedProvider (toLowerS "oracle")) ∧
    handleUpload (some "Unknown") none "x" =
      Except.error UploadError.couldNotIdentify :=
  ⟨by decide, by decide, by decide,
   (unsupported_provider_rejected_before_transform "Unknown" "oracle" "x"
     (by decide) (by decide) (by decide)).1,
   (unsupported_provider_rejected_before_transform "Unknown" "oracle" "x"
     (by decide) (by decide) (by decide)).2⟩

/-- Zero fuel leaves the text unchanged. -/
theorem scanF_zero (m : Rule) (l : List Char) : scanF m 0 l = l := by
  cases l <;> rfl

/-- The `${path.module` repair only fires at a dollar sign. -/
theorem mPathModule_none_no_dollar (l : List Char) (h : ∀ c ∈ l, c ≠ '$') :
    mPathModule l = none := by
  cases hA : afterLit "$\x7bpath.module".data l with
  | none => simp [mPathModule, hA]
  | some r1 =>
    have hl : leadsWith ('$' :: "\x7bpath.module".data) l = true := afterLit_some_leadsWith hA
    obtain ⟨t, rfl⟩ := leadsWith_cons_head hl
    exact absurd rfl (h '$' (by simp))

/-- The unclosed-interpolation repair only fires at a dollar sign. -/
theorem mInterpClose_none_no_dollar (l : List Char) (h : ∀ c ∈ l, c ≠ '$') :
    mInterpClose l = none := by
  cases hA : afterLit "$\x7b".data l with
  | none => simp [mInterpClose, hA]
  | some r1 =>
    have hl : leadsWith ('$' :: "\x7b".data) l = true := afterLit_some_leadsWith hA
    obtain ⟨t, rfl⟩ := leadsWith_cons_head hl
    exact absurd rfl (h '$' (by simp))

/-- A text without dollar signs passes unchanged through both interpolation
repairs. -/
theorem interp_repairs_id (L : List Char) (h : ∀ c ∈ L, c ≠ '$') :
    runScan mInterpClose (runScan mPathModule L) = L := by
  have e1 : runScan mPathModule L = L :=
    scanF_eq_self _ _ _
      (fun k => mPathModule_none_no_dollar _ (fun c hc => h c (List.drop_subset k L hc)))
  rw [e1]
  exact scanF_eq_self _ _ _
    (fun k => mInterpClose_none_no_dollar _ (fun c hc => h c (List.drop_subset k L hc)))

/-- The blank-line rule only fires at a newline. -/
theorem mBlank_none_not_nl {c : Char} (cs : List Char) (h : c ≠ '\n') :
    mBlank (c :: cs) = none := by
  simp [mBlank, h]

/-- The collapse rule fires at no position inside `l` (decidable form):
`l` contains no whitespace run with two or more newlines. -/
def blankRunFree (l : List Char) : Bool :=
  (List.range l.length).all (fun k => (mBlank (l.drop k)).isNone)

/-- Unfolding `blankRunFree` to all offsets. -/
theorem blankRunFree_spec {l : List Char} (h : blankRunFree l = true) :
    ∀ k, mBlank (l.drop k) = none := by
  intro k
  by_cases hk : k < l.length
  · have := (List.all_eq_true.mp h) k (List.mem_range.mpr hk)
    simpa using this
  · have hnil : l.drop k = [] := List.drop_eq_nil_of_le (by omega)
    rw [hnil]
    rfl

/-- `takeWhile` stops inside `x` when `x` contains a failing element, so
appending more text changes nothing. -/
theorem takeWhile_append_of_exists_neg {p : Char → Bool} :
    ∀ (x : List Char), (∃ c ∈ x, p c = false) →
      ∀ (y : List Char), (x ++ y).takeWhile p = x.takeWhile p := by
  intro x
  induction x with
  | nil =>
    intro h
    obtain ⟨c, hc, -⟩ := h
    simp at hc
  | cons a x' ih =>
    intro h y
    cases hp : p a with
    | false =>
      rw [List.cons_append, List.takeWhile_cons_of_neg (by simp [hp]),
        List.takeWhile_cons_of_neg (by simp [hp])]
    | true =>
      obtain ⟨c, hc, hcp⟩ := h
      have hcx' : c ∈ x' := by
        rcases List.mem_cons.mp hc with rfl | hx
        · exact absurd hcp (by simp [hp])
        · exact hx
      rw [List.cons_append, List.takeWhile_cons_of_pos hp, List.takeWhile_cons_of_pos hp,
        ih ⟨c, hcx', hcp⟩ y]

/-- Appending text cannot make the collapse rule fire where it did not,
provided the scanned span contains a non-whitespace character (the run the
rule inspects then ends inside the span). -/
theorem mBlank_append_none (x t : List Char) (hx : mBlank x = none)
    (hnw : ∃ c ∈ x, isWsChar c = false) : mBlank (x ++ t) = none := by
  cases x with
  | nil =>
    obtain ⟨c, hc, -⟩ := hnw
    simp at hc
  | cons a x' =>
    by_cases ha : a = '\n'
    · subst ha
      have hnw' : ∃ c ∈ x', isWsChar c = false := by
        obtain ⟨c, hc, hcp⟩ := hnw
        rcases List.mem_cons.mp hc with rfl | hx'
        · exact absurd hcp (by decide)
        · exact ⟨c, hx', hcp⟩
      simp only [mBlank, List.cons_append, if_pos rfl] at hx ⊢
      rw [List.takeWhile_cons_of_pos (by decide : isWsChar '\n' = true)] at hx ⊢
      rw [takeWhile_append_of_exists_neg x' hnw' t]
      exact hx
    · rw [List.cons_append]
      exact mBlank_none_not_nl _ ha

/-- The collapse scan passes over a prefix at which the rule never fires. -/
theorem scanF_blank_skip (t : List Char) :
    ∀ (a : List Char) (f : Nat),
      (∀ k, k < a.length → mBlank (a.drop k ++ t) = none) →
      scanF mBlank f (a ++ t) = a ++ scanF mBlank (f - a.length) t := by
  intro a
  induction a with
  | nil => intro f _; simp
  | cons c a' ih =>
    intro f h
    have h0 : mBlank ((c :: a') ++ t) = none := h 0 (by simp)
    cases f with
    | zero =>
      rw [Nat.zero_sub, scanF_zero, scanF_zero]
    | succ f =>
      simp only [List.cons_append] at h0
      simp only [List.cons_append, scanF, h0, List.append_eq]
      rw [ih f (fun k hk => h (k + 1) (by simp [List.length_cons]; omega))]
      simp [List.length_cons, Nat.succ_sub_succ]

/-- The blank-line rule at a run of four newlines followed by non-whitespace:
the whole run is consumed and replaced by two newlines. -/
theorem mBlank_at_run (d : Char) (b' : List Char) (hd : isWsChar d = false) :
    mBlank ('\n' :: '\n' :: '\n' :: '\n' :: d :: b') = some ("\n\n".data, 3) := by
  have w : isWsChar '\n' = true := by decide
  rw [mBlank]
  simp only [w, if_true, decide_eq_true_eq, if_pos rfl]
  rw [List.takeWhile_cons_of_pos w, List.takeWhile_cons_of_pos w,
    List.takeWhile_cons_of_pos w, List.takeWhile_cons_of_pos w,
    List.takeWhile_cons_of_neg (by simp [hd])]
  simp

/-- Collapsing a run of four newlines before text at which the rule fires
nowhere. -/
theorem scanF_blank_at_run (d : Char) (b' : List Char) (hd : isWsChar d = false)
    (hbf : ∀ k, mBlank ((d :: b').drop k) = none) (f : Nat) :
    scanF mBlank (f + 1) ('\n' :: '\n' :: '\n' :: '\n' :: d :: b') =
      '\n' :: '\n' :: d :: b' := by
  simp only [scanF, mBlank_at_run d b' hd]
  have hdrop : List.drop 3 ('\n' :: '\n' :: '\n' :: d :: b') = d :: b' := rfl
  rw [hdrop, scanF_eq_self _ _ _ hbf]
  rfl

/-- Dropping fewer elements than the length keeps the last element. -/
theorem getLast?_drop_of_lt :
    ∀ (l : List Char) (k : Nat), k < l.length → (l.drop k).getLast? = l.getLast? := by
  intro l
  induction l with
  | nil => intro k hk; simp at hk
  | cons c cs ih =>
    intro k hk
    cases k with
    | zero => rfl
    | succ k =>
      have hk' : k < cs.length := by simpa using hk
      have hcs : cs ≠ [] := by
        intro h
        rw [h] at hk'
        simp at hk'
      rw [List.drop_succ_cons, ih k hk']
      rw [List.getLast?_eq_head?_reverse, List.getLast?_eq_head?_reverse,
        List.reverse_cons, List.head?_append]
      cases hrc : cs.reverse with
      | nil => simp at hrc; exact absurd hrc hcs
      | cons y ys => simp [hrc]

/-- A text whose first and last characters are not whitespace is untouched by
`trim`. -/
theorem trimL_eq_self (l : List Char)
    (h1 : ∀ c, l.head? = some c → isWsChar c = false)
    (h2 : ∀ c, l.getLast? = some c → isWsChar c = false) : trimL l = l := by
  unfold trimL
  have e1 : l.dropWhile isWsChar = l := by
    cases l with
    | nil => rfl
    | cons c cs =>
      rw [List.dropWhile_cons_of_neg]
      simp [h1 c rfl]
  rw [e1]
  have e2 : l.reverse.dropWhile isWsChar = l.reverse := by
    cases hr : l.reverse with
    | nil => rfl
    | cons c cs =>
      rw [List.dropWhile_cons_of_neg]
      have hc : l.getLast? = some c := by
        rw [List.getLast?_eq_head?_reverse, hr]; rfl
      simp [h2 c hc]
  rw [e2, List.reverse_reverse]

/-- C8 (amended): a run of three blank lines (four consecutive newlines)
collapses, in the pipeline's final cleanup, to exactly one blank line at the
same position, and the surrounding document survives the final trim
unchanged — provided the surrounding text contains no dollar sign (an
unclosed interpolation before the run would be repaired first and consume
the run), begins and ends with non-whitespace, and contains no blank-line
run of its own. -/
theorem blank_line_run_collapses_to_one (a b : List Char)
    (hane : a ≠ []) (hbne : b ≠ [])
    (had : ∀ c ∈ a, c ≠ '$') (hbd : ∀ c ∈ b, c ≠ '$')
    (hah : (a.head?.all fun c => !isWsChar c) = true)
    (hal : (a.getLast?.all fun c => !isWsChar c) = true)
    (hbh : (b.head?.all fun c => !isWsChar c) = true)
    (hbl : (b.getLast?.all fun c => !isWsChar c) = true)
    (haf : blankRunFree a = true) (hbf : blankRunFree b = true) :
    finalCleanups (a ++ "\n\n\n\n".data ++ b) = a ++ "\n\n".data ++ b := by
  have hrun : ("\n\n\n\n".data : List Char) = ['\n', '\n', '\n', '\n'] := rfl
  have hnd : ∀ c ∈ a ++ "\n\n\n\n".data ++ b, c ≠ '$' := by
    intro c hc
    rcases List.mem_append.mp hc with hc1 | hc2
    · rcases List.mem_append.mp hc1 with hca | hcm
      · exact had c hca
      · rw [hrun] at hcm
        simp at hcm
        rw [hcm]
        decide
    · exact hbd c hc2
  unfold finalCleanups
  rw [interp_repairs_id _ hnd]
  obtain ⟨d, b', rfl⟩ := List.exists_cons_of_ne_nil hbne
  have hdw : isWsChar d = false := by simpa using hbh
  obtain ⟨e, he⟩ : ∃ e, a.getLast? = some e := by
    cases hg : a.getLast? with
    | none =>
      rw [List.getLast?_eq_head?_reverse] at hg
      simp at hg
      exact absurd hg hane
    | some e => exact ⟨e, rfl⟩
  have hew : isWsChar e = false := by
    rw [he] at hal
    simpa using hal
  have hmemdrop : ∀ k, k < a.length → e ∈ a.drop k := by
    intro k hk
    exact List.mem_of_getLast?_eq_some ((getLast?_drop_of_lt a k hk).trans he)
  have ecol : runScan mBlank (a ++ "\n\n\n\n".data ++ (d :: b')) =
      a ++ "\n\n".data ++ (d :: b') := by
    unfold runScan
    rw [List.append_assoc]
    rw [scanF_blank_skip _ a _ (fun k hk =>
      mBlank_append_none _ _ (blankRunFree_spec haf k) ⟨e, hmemdrop k hk, hew⟩)]
    have hlen : (a ++ ("\n\n\n\n".data ++ (d :: b'))).length - a.length =
        (3 + (d :: b').length) + 1 := by
      simp [hrun]
      omega
    rw [hlen]
    have hform : "\n\n\n\n".data ++ (d :: b') = '\n' :: '\n' :: '\n' :: '\n' :: d :: b' := rfl
    rw [hform, scanF_blank_at_run d b' hdw (blankRunFree_spec hbf)]
    simp [List.append_assoc]
  rw [ecol]
  apply trimL_eq_self
  · intro c hc
    obtain ⟨x, a'', rfl⟩ := List.exists_cons_of_ne_nil hane
    simp at hc
    rw [← hc]
    simpa using hah
  · intro c hc
    rw [List.getLast?_append] at hc
    cases hgl : (d :: b').getLast? with
    | none =>
      rw [List.getLast?_eq_head?_reverse] at hgl
      simp at hgl
    | some e2 =>
      rw [hgl] at hc
      simp [Option.or] at hc
      rw [← hc]
      rw [hgl] at hbl
      simpa using hbl

/-- Document with an unclosed interpolation right before the blank-line run. -/
def interpBeforeRunDoc : String := "x$\x7ba\n\n\n\nb"

/-- C8 (counterexample): on an input containing three consecutive blank lines
the final cleanup can erase the run entirely instead of collapsing it to one
blank line: the unclosed-interpolation repair runs before the collapse and
consumes every newline of the run, leaving no blank line at all. -/
theorem blank_run_destroyed_by_interp_cx :
    containsSub interpBeforeRunDoc.data "\n\n\n\n".data = true ∧
    finalCleanups interpBeforeRunDoc.data = "x$\x7ba\x7db".data ∧
    containsSub (finalCleanups interpBeforeRunDoc.data) "\n".data = false := by
  decide

/-- Witness for the amended C8 theorem at a concrete document whose
surrounding text itself contains newlines. -/
theorem blank_line_collapse_witness :
    blankRunFree "x\ny".data = true ∧ blankRunFree "p\nq".data = true ∧
    (∀ c ∈ "x\ny".data, c ≠ '$') ∧
    finalCleanups ("x\ny".data ++ "\n\n\n\n".data ++ "p\nq".data) =
      "x\ny".data ++ "\n\n".data ++ "p\nq".data :=
  ⟨by decide, by decide, by decide,
   blank_line_run_collapses_to_one "x\ny".data "p\nq".data (by decide) (by decide)
     (by decide) (by decide) (by decide) (by decide) (by decide) (by decide)
     (by decide) (by decide)⟩
